import Mathlib

/-
Shallow embedding of the AlgoBot trading bot (src/main.py) and verification
of its specification claims.  Real-valued quantities (prices, quantities,
cash) from the Python source are modelled by rational numbers; Python dicts
are modelled by association lists looked up by key.
-/

namespace AlgoBot

/-- Take-profit ratio threshold, src/main.py line 21 (`TP_THRESHOLD = 1.06`). -/
def TP_THRESHOLD : ℚ := 106 / 100

/-- Stop-loss ratio threshold, src/main.py line 22 (`SL_THRESHOLD = 0.97`). -/
def SL_THRESHOLD : ℚ := 97 / 100

/-- Vote-count threshold for a strong SELL signal, src/main.py line 23; the
same constant is reused for strong BUY selection in `execute_buys`. -/
def STRONG_SELL_THRESHOLD : ℕ := 13

/-- Vote-count threshold for weak-sell rebalancing, src/main.py line 558
(local constant `WEAK_SELL_THRESHOLD = 8` in `execute_weak_sell_rebalancing`). -/
def WEAK_SELL_THRESHOLD : ℕ := 8

/-- Reserve cash floor, src/main.py line 44 (`RESERVE_CASH = 20000`). -/
def RESERVE_CASH : ℚ := 20000

/-- Fast-loop period in seconds, src/main.py line 26. -/
def QUICK_TP_SL_CHECK_INTERVAL : ℕ := 15

/-- Full-cycle period in seconds, src/main.py line 27. -/
def FULL_TRADING_CYCLE_INTERVAL : ℕ := 600

/-- Dust floor used by `get_current_positions`, src/main.py line 411 (`1e-8`). -/
def DUST_FLOOR : ℚ := 1 / 100000000

/-- Aggregate recommendation label after normalization in `get_all_technicals`
(src/main.py lines 372-373, 396-397): every label is reduced to BUY, SELL or
NEUTRAL before it reaches the trading logic. -/
inductive Signal
| BUY
| SELL
| NEUTRAL
deriving DecidableEq, Repr

/-- One entry of the `technicals` mapping built by `get_all_technicals`
(src/main.py lines 374, 398): price, vote counts, normalized signal, score. -/
structure Tech where
  price : ℚ
  sell : ℕ
  neutral : ℕ
  buy : ℕ
  signal : Signal
  score : ℤ
deriving DecidableEq, Repr

/-- One ledger entry of the persisted portfolio dict: `buy_price` and
`quantity` (src/main.py line 73).  The `timestamp` field is ignored since no
claim concerns it. -/
structure Entry where
  buy_price : ℚ
  quantity : ℚ
deriving DecidableEq, Repr

/-- The portfolio ledger: a mapping coin ↦ entry. -/
abbrev Ledger := List (String × Entry)

/-- Free and locked amounts of one wallet asset
(`balance_data['SpotWallet'][coin]`, src/main.py line 410). -/
structure Amounts where
  free : ℚ
  lock : ℚ
deriving DecidableEq, Repr

/-- The `SpotWallet` part of a balance response: coin ↦ amounts. -/
abbrev Wallet := List (String × Amounts)

/-- The `PAIR_PRECISION` mapping: pair ↦ integer decimal places
(src/main.py lines 47, 329-341). -/
abbrev PrecisionMap := List (String × ℕ)

/-- Order side of a submitted market order. -/
inductive Side
| BUY
| SELL
deriving DecidableEq, Repr

/-- Why an order was submitted; distinguishes the code paths that call
`place_order` in src/main.py. -/
inductive Reason
| TP
| SL
| STRONG_SELL
| WEAK_SELL_REBALANCE
| STRONG_BUY
deriving DecidableEq, Repr

/-- One order submitted to `place_order`, tagged with the reason of the
submitting code path. -/
structure Intent where
  pair : String
  side : Side
  quantity : ℚ
  reason : Reason
deriving DecidableEq, Repr

/-- Pair name of a coin, `f"{coin}/USD"` as built throughout src/main.py. -/
def pairOf (coin : String) : String := coin ++ "/USD"

/-- Floor-truncation of a quantity to `p` decimal places:
`math.floor(q * factor) / factor` with `factor = 10 ** p`
(src/main.py lines 197-198, 458-459, 514-515, 578-579, 653-654). -/
def truncate (q : ℚ) (p : ℕ) : ℚ := (⌊q * 10 ^ p⌋ : ℚ) / 10 ^ p

/-- Embeds `get_current_positions` (src/main.py lines 407-413): every
non-USD asset whose Free+Lock total exceeds 1e-8, with that total as its
quantity. -/
def get_current_positions (wallet : Wallet) : List (String × ℚ) :=
  wallet.filterMap fun ca =>
    if ca.1 ≠ "USD" ∧ DUST_FLOOR < ca.2.free + ca.2.lock then
      some (ca.1, ca.2.free + ca.2.lock)
    else none

/-- Embeds `get_total_cash_balance` (src/main.py lines 415-419): the USD
Free amount, defaulting to 0. -/
def get_total_cash_balance (wallet : Wallet) : ℚ :=
  ((wallet.lookup "USD").map Amounts.free).getD 0

/-- Embeds `get_total_portfolio_value` (src/main.py lines 421-438): sum of
quantity * LastPrice over current positions whose pair has a positive ticker
price. -/
def get_total_portfolio_value (wallet : Wallet) (ticker : List (String × ℚ)) : ℚ :=
  ((get_current_positions wallet).map fun cq =>
    match ticker.lookup (pairOf cq.1) with
    | none => 0
    | some price => if 0 < price then cq.2 * price else 0).sum

/-- Result of evaluating one held coin against the TP/SL thresholds. -/
inductive TPSLStatus
| take_profit
| stop_loss
| safe
| skipped
deriving DecidableEq, Repr

/-- Embeds the per-coin classification of `get_holdings_to_sell_for_tp_sl`
(src/main.py lines 111-133): skip when the coin has no portfolio record or
no technical data; otherwise `price_ratio = current_price / buy_price` when
`buy_price > 0` else `1.0`, then TP at `ratio >= TP_THRESHOLD`, SL at
`ratio <= SL_THRESHOLD`, else SAFE. -/
def classify_tp_sl_full (ledger : Ledger) (technicals : List (String × Tech))
    (coin : String) : TPSLStatus :=
  match ledger.lookup coin with
  | none => TPSLStatus.skipped
  | some e =>
    match technicals.lookup (pairOf coin) with
    | none => TPSLStatus.skipped
    | some t =>
      let pr := if 0 < e.buy_price then t.price / e.buy_price else 1
      if TP_THRESHOLD ≤ pr then TPSLStatus.take_profit
      else if pr ≤ SL_THRESHOLD then TPSLStatus.stop_loss
      else TPSLStatus.safe

/-- Embeds the per-coin classification of `quick_tp_sl_check_and_sell`
(src/main.py lines 170-193, 220, 248): skip when the coin has no portfolio
record or `buy_price <= 0`, no ticker entry, or `LastPrice <= 0`; otherwise
the same threshold comparison on `current_price / buy_price`. -/
def classify_tp_sl_quick (ledger : Ledger) (ticker : List (String × ℚ))
    (coin : String) : TPSLStatus :=
  match ledger.lookup coin with
  | none => TPSLStatus.skipped
  | some e =>
    if e.buy_price ≤ 0 then TPSLStatus.skipped
    else
      match ticker.lookup (pairOf coin) with
      | none => TPSLStatus.skipped
      | some price =>
        if price ≤ 0 then TPSLStatus.skipped
        else
          let pr := price / e.buy_price
          if TP_THRESHOLD ≤ pr then TPSLStatus.take_profit
          else if pr ≤ SL_THRESHOLD then TPSLStatus.stop_loss
          else TPSLStatus.safe

/-- Shared sell-order construction: look up the pair's precision (skip when
absent), floor-truncate the quantity, and submit only when the truncated
quantity is positive (src/main.py lines 195-201, 222-228, 456-462, 573-583). -/
def sellIntentOf (cq : String × ℚ) (r : Reason) (prec : PrecisionMap) : Option Intent :=
  match prec.lookup (pairOf cq.1) with
  | none => none
  | some p =>
    let aq := truncate cq.2 p
    if 0 < aq then some (Intent.mk (pairOf cq.1) Side.SELL aq r) else none

/-- Embeds `get_holdings_to_sell_for_tp_sl` (src/main.py lines 88-135): the
positions of the balance snapshot whose classification is TP or SL, with the
full snapshot quantity and reason. -/
def get_holdings_to_sell_for_tp_sl (wallet : Wallet)
    (technicals : List (String × Tech)) (ledger : Ledger) :
    List (String × ℚ × Reason) :=
  (get_current_positions wallet).filterMap fun cq =>
    match classify_tp_sl_full ledger technicals cq.1 with
    | TPSLStatus.take_profit => some (pairOf cq.1, cq.2, Reason.TP)
    | TPSLStatus.stop_loss => some (pairOf cq.1, cq.2, Reason.SL)
    | _ => none

/-- Embeds the order submissions of `execute_tp_sl_sells`
(src/main.py lines 495-551): for each selected holding, look up precision,
floor-truncate, and submit when positive. -/
def execute_tp_sl_sells (to_sell : List (String × ℚ × Reason))
    (prec : PrecisionMap) : List Intent :=
  to_sell.filterMap fun x =>
    match prec.lookup x.1 with
    | none => none
    | some p =>
      let aq := truncate x.2.1 p
      if 0 < aq then some (Intent.mk x.1 Side.SELL aq x.2.2) else none

/-- Embeds the order submissions of `execute_sells` (src/main.py lines
443-493): positions whose technical signal is SELL with at least
`STRONG_SELL_THRESHOLD` sell votes, floor-truncated, submitted when
positive. -/
def execute_sells (positions : List (String × ℚ))
    (technicals : List (String × Tech)) (prec : PrecisionMap) : List Intent :=
  positions.filterMap fun cq =>
    match technicals.lookup (pairOf cq.1) with
    | none => none
    | some t =>
      if t.signal = Signal.SELL ∧ STRONG_SELL_THRESHOLD ≤ t.sell then
        sellIntentOf cq Reason.STRONG_SELL prec
      else none

/-- Embeds the order submissions of `execute_weak_sell_rebalancing`
(src/main.py lines 553-619): positions with at least `WEAK_SELL_THRESHOLD`
sell votes regardless of signal direction, floor-truncated, submitted when
positive. -/
def execute_weak_sell_rebalancing (positions : List (String × ℚ))
    (technicals : List (String × Tech)) (prec : PrecisionMap) : List Intent :=
  positions.filterMap fun cq =>
    match technicals.lookup (pairOf cq.1) with
    | none => none
    | some t =>
      if WEAK_SELL_THRESHOLD ≤ t.sell then
        sellIntentOf cq Reason.WEAK_SELL_REBALANCE prec
      else none

/-- Embeds the strong-buy candidate filter of `execute_buys`
(src/main.py line 624): signal BUY with at least `STRONG_SELL_THRESHOLD`
buy votes, in ranked order. -/
def buy_signals (ranked : List (String × Tech)) : List (String × Tech) :=
  ranked.filter fun pd =>
    decide (pd.2.signal = Signal.BUY ∧ STRONG_SELL_THRESHOLD ≤ pd.2.buy)

/-- Embeds `exponential_weights = [2 ** (num_buys - i - 1) for i in
range(num_buys)]` (src/main.py line 643), cast to rationals. -/
def exponential_weights (n : ℕ) : List ℚ :=
  (List.range n).map fun i => 2 ^ (n - i - 1)

/-- Embeds `allocation = (exponential_weights[i] / total_weight) *
cash_to_invest` (src/main.py line 646). -/
def allocation (cash_to_invest : ℚ) (n i : ℕ) : ℚ :=
  2 ^ (n - i - 1) / (exponential_weights n).sum * cash_to_invest

/-- Embeds the buy loop of `execute_buys` (src/main.py lines 645-667): each
candidate in rank order receives its fixed-denominator allocation and is
skipped when the allocation is below $10, the price is non-positive, the
pair has no precision rule, or the truncated quantity is zero. -/
def buy_intents (cash_to_invest : ℚ) (signals : List (String × Tech))
    (prec : PrecisionMap) : List Intent :=
  signals.enum.filterMap fun ix =>
    let alloc := allocation cash_to_invest signals.length ix.1
    if alloc < 10 then none
    else if ix.2.2.price ≤ (0 : ℚ) then none
    else
      match prec.lookup ix.2.1 with
      | none => none
      | some p =>
        let aq := truncate (alloc / ix.2.2.price) p
        if 0 < aq then some (Intent.mk ix.2.1 Side.BUY aq Reason.STRONG_BUY) else none

/-- Embeds `execute_buys` (src/main.py lines 621-667) at the level of
submitted orders: with no strong-buy candidate it returns immediately;
otherwise it first runs weak-sell rebalancing, credits the fill proceeds
(`fill` is the external fill oracle giving each sell order's USD proceeds),
subtracts the reserve, stops if at most $10 remains, and otherwise buys. -/
def execute_buys (available_cash : ℚ) (ranked : List (String × Tech))
    (positions : List (String × ℚ)) (technicals : List (String × Tech))
    (prec : PrecisionMap) (fill : Intent → ℚ) : List Intent :=
  let signals := buy_signals ranked
  if signals.isEmpty then []
  else
    let weak := execute_weak_sell_rebalancing positions technicals prec
    let cash := available_cash + (weak.map fill).sum
    let cash_to_invest := cash - RESERVE_CASH
    if cash_to_invest ≤ 10 then weak
    else weak ++ buy_intents cash_to_invest signals prec

/-- Stable descending insertion by score: the inserted element goes after
every element with a score at least its own. -/
def insertDesc (x : String × Tech) : List (String × Tech) → List (String × Tech)
  | [] => [x]
  | y :: ys => if x.2.score ≤ y.2.score then y :: insertDesc x ys else x :: y :: ys

/-- Embeds `rank_pairs_by_technicals` (src/main.py lines 440-441):
`sorted(technicals.items(), key=score, reverse=True)`, a stable descending
sort by score, realized as a stable insertion sort. -/
def rank_pairs_by_technicals (technicals : List (String × Tech)) :
    List (String × Tech) :=
  technicals.foldl (fun acc x => insertDesc x acc) []

/-- Replace the entry of `coin` (first occurrence) or append a fresh one:
Python dict assignment `portfolio[coin] = e`. -/
def setEntry : Ledger → String → Entry → Ledger
  | [], coin, e => [(coin, e)]
  | ce :: rest, coin, e =>
      if ce.1 = coin then (coin, e) :: rest else ce :: setEntry rest coin e

/-- Embeds `update_portfolio_on_buy` (src/main.py lines 69-86): start from
the recorded entry (or a fresh `(0, 0)` one), and set the cost basis to the
volume-weighted average when the new total quantity is positive.  The source
derives the coin as `pair.split('/')[0]`; the coin is passed directly here. -/
def update_portfolio_on_buy (coin : String) (quantity current_price : ℚ)
    (ledger : Ledger) : Ledger :=
  let e := (ledger.lookup coin).getD (Entry.mk 0 0)
  let new_total_qty := e.quantity + quantity
  let new_price :=
    if 0 < new_total_qty then
      (e.buy_price * e.quantity + current_price * quantity) / new_total_qty
    else e.buy_price
  setEntry ledger coin (Entry.mk new_price new_total_qty)

/-- Embeds the ledger update performed after every successful full
liquidating sell (`portfolio[coin]['quantity'] = 0` guarded by
`if coin in portfolio`, src/main.py lines 213, 240, 482-483, 539-540,
603-604): the quantity is zeroed, the entry is kept. -/
def zero_position (ledger : Ledger) (coin : String) : Ledger :=
  match ledger.lookup coin with
  | none => ledger
  | some e => setEntry ledger coin (Entry.mk e.buy_price 0)

/-- Embeds the order submissions of `quick_tp_sl_check_and_sell`
(src/main.py lines 137-253): with usable ticker data, every current
position classified TP or SL is sold after precision truncation. -/
def quick_intents (wallet : Wallet) (ticker : List (String × ℚ))
    (ledger : Ledger) (prec : PrecisionMap) : List Intent :=
  if ticker.isEmpty then []
  else
    (get_current_positions wallet).filterMap fun cq =>
      match classify_tp_sl_quick ledger ticker cq.1 with
      | TPSLStatus.take_profit => sellIntentOf cq Reason.TP prec
      | TPSLStatus.stop_loss => sellIntentOf cq Reason.SL prec
      | _ => none

/-- Embeds the order submissions of one `trading_cycle`
(src/main.py lines 671-707): positions and cash are read once from the
balance snapshot, then TP/SL sells, strong sells and the buy phase run in
order, each later phase crediting the fill proceeds of the earlier ones. -/
def cycle_intents (wallet : Wallet) (technicals : List (String × Tech))
    (ledger : Ledger) (prec : PrecisionMap) (fill : Intent → ℚ) : List Intent :=
  if technicals.isEmpty then []
  else
    let available_cash := get_total_cash_balance wallet
    let positions := get_current_positions wallet
    let tpsl := execute_tp_sl_sells
      (get_holdings_to_sell_for_tp_sl wallet technicals ledger) prec
    let ranked := rank_pairs_by_technicals technicals
    let strong := execute_sells positions technicals prec
    let cash := available_cash + (tpsl.map fill).sum + (strong.map fill).sum
    tpsl ++ strong ++ execute_buys cash ranked positions technicals prec fill

/-- External data available to one scheduler tick: balance snapshot, ticker,
technicals, the ledger, the precision rules and the fill oracle. -/
structure Env where
  wallet : Wallet
  ticker : List (String × ℚ)
  technicals : List (String × Tech)
  ledger : Ledger
  prec : PrecisionMap
  fill : Intent → ℚ

/-- Embeds one iteration of the scheduler loop in `main`
(src/main.py lines 722-747): when the accumulated timer reaches
`FULL_TRADING_CYCLE_INTERVAL` the full cycle runs first and the timer
resets; the quick TP/SL check then runs unconditionally, and the timer
advances by `QUICK_TP_SL_CHECK_INTERVAL`.  Returns the submitted orders of
the tick and the new timer. -/
def tick (env : Env) (time_since_full_cycle : ℕ) : List Intent × ℕ :=
  let full_t :=
    if FULL_TRADING_CYCLE_INTERVAL ≤ time_since_full_cycle then
      (cycle_intents env.wallet env.technicals env.ledger env.prec env.fill, 0)
    else ([], time_since_full_cycle)
  let q := quick_intents env.wallet env.ticker env.ledger env.prec
  (full_t.1 ++ q, full_t.2 + QUICK_TP_SL_CHECK_INTERVAL)

/-! ## Helper lemmas -/

/-- Looking up the written key after `setEntry` returns the written entry. -/
theorem lookup_setEntry (l : Ledger) (c : String) (e : Entry) :
    (setEntry l c e).lookup c = some e := by
  induction l with
  | nil => simp [setEntry]
  | cons ce rest ih =>
    obtain ⟨k, v⟩ := ce
    by_cases h : k = c
    · simp [setEntry, h]
    · have hb : (c == k) = false := beq_eq_false_iff_ne.mpr (Ne.symm h)
      simp [setEntry, h, List.lookup_cons, hb, ih]

/-- When the key is already present, `setEntry` replaces its entry in place
and leaves every other lookup unchanged. -/
theorem lookup_setEntry_of_lookup (l : Ledger) (c c' : String) (e e0 : Entry)
    (h : l.lookup c = some e0) :
    (setEntry l c e).lookup c' = if c' = c then some e else l.lookup c' := by
  induction l with
  | nil => simp at h
  | cons ce rest ih =>
    obtain ⟨k, v⟩ := ce
    by_cases hk : k = c
    · subst hk
      by_cases h' : c' = k
      · have hb : (c' == k) = true := beq_iff_eq.mpr h'
        simp [setEntry, List.lookup_cons, h', hb]
      · have hb : (c' == k) = false := beq_eq_false_iff_ne.mpr h'
        simp [setEntry, List.lookup_cons, h', hb]
    · have hbk : (c == k) = false := beq_eq_false_iff_ne.mpr (Ne.symm hk)
      have hrest : rest.lookup c = some e0 := by
        simpa [List.lookup_cons, hbk] using h
      by_cases h' : c' = k
      · subst h'
        have hb : (c' == c') = true := beq_self_eq_true c'
        have hcc : ¬ c' = c := hk
        simp [setEntry, hk, List.lookup_cons, hb, hcc]
      · have hb : (c' == k) = false := beq_eq_false_iff_ne.mpr h'
        simp [setEntry, hk, List.lookup_cons, hb, ih hrest]

/-- Characterization of membership in `get_current_positions`. -/
theorem mem_get_current_positions (wallet : Wallet) (c : String) (q : ℚ) :
    (c, q) ∈ get_current_positions wallet ↔
      ∃ a : Amounts, (c, a) ∈ wallet ∧ c ≠ "USD" ∧ DUST_FLOOR < a.free + a.lock ∧
        q = a.free + a.lock := by
  simp only [get_current_positions, List.mem_filterMap]
  constructor
  · rintro ⟨⟨c0, a⟩, hmem, hf⟩
    by_cases hcond : c0 ≠ "USD" ∧ DUST_FLOOR < a.free + a.lock
    · rw [if_pos hcond] at hf
      obtain ⟨h1, h2⟩ := Prod.mk.injEq .. ▸ (Option.some.injEq _ _ ▸ hf :)
      exact ⟨a, h1 ▸ hmem, h1 ▸ hcond.1, hcond.2, h2.symm⟩
    · rw [if_neg hcond] at hf
      exact absurd hf (by simp)
  · rintro ⟨a, hmem, hne, hlt, rfl⟩
    exact ⟨(c, a), hmem, by simp [hne, hlt]⟩

/-- Case analysis of the shared TP/SL threshold comparison: the three
classifications are mutually exclusive and characterized by the ratio,
since `SL_THRESHOLD < TP_THRESHOLD`. -/
theorem threshold_cases (pr : ℚ) :
    ((if TP_THRESHOLD ≤ pr then TPSLStatus.take_profit
      else if pr ≤ SL_THRESHOLD then TPSLStatus.stop_loss
      else TPSLStatus.safe) = TPSLStatus.take_profit ↔ TP_THRESHOLD ≤ pr) ∧
    ((if TP_THRESHOLD ≤ pr then TPSLStatus.take_profit
      else if pr ≤ SL_THRESHOLD then TPSLStatus.stop_loss
      else TPSLStatus.safe) = TPSLStatus.stop_loss ↔ pr ≤ SL_THRESHOLD) ∧
    ((if TP_THRESHOLD ≤ pr then TPSLStatus.take_profit
      else if pr ≤ SL_THRESHOLD then TPSLStatus.stop_loss
      else TPSLStatus.safe) = TPSLStatus.safe ↔
        SL_THRESHOLD < pr ∧ pr < TP_THRESHOLD) := by
  have hgap : SL_THRESHOLD < TP_THRESHOLD := by
    norm_num [SL_THRESHOLD, TP_THRESHOLD]
  split_ifs with h1 h2
  · exact ⟨iff_of_true rfl h1, iff_of_false (by simp) (by intro h; linarith),
      iff_of_false (by simp) (by rintro ⟨_, h⟩; linarith)⟩
  · exact ⟨iff_of_false (by simp) h1, iff_of_true rfl h2,
      iff_of_false (by simp) (by rintro ⟨h, _⟩; linarith)⟩
  · exact ⟨iff_of_false (by simp) h1, iff_of_false (by simp) h2,
      iff_of_true rfl ⟨not_le.mp h2, not_le.mp h1⟩⟩

/-- Every order produced by `sellIntentOf` is a SELL on the coin's pair with
the given reason and a positive truncated quantity. -/
theorem sellIntentOf_eq_some {cq : String × ℚ} {r : Reason} {prec : PrecisionMap}
    {x : Intent} (h : sellIntentOf cq r prec = some x) :
    x.pair = pairOf cq.1 ∧ x.side = Side.SELL ∧ x.reason = r ∧
    ∃ p, prec.lookup (pairOf cq.1) = some p ∧ x.quantity = truncate cq.2 p ∧
      0 < truncate cq.2 p := by
  unfold sellIntentOf at h
  cases hp : prec.lookup (pairOf cq.1) with
  | none => rw [hp] at h; simp at h
  | some p =>
    rw [hp] at h
    dsimp only at h
    by_cases hq : 0 < truncate cq.2 p
    · rw [if_pos hq] at h
      injection h with h2
      subst h2
      exact ⟨rfl, rfl, rfl, p, rfl, rfl, hq⟩
    · rw [if_neg hq] at h; exact absurd h (by simp)

/-- Constructor form of `sellIntentOf`: a known precision and a positive
truncated quantity yield exactly the expected sell order. -/
theorem sellIntentOf_mk {cq : String × ℚ} {r : Reason} {prec : PrecisionMap} {p : ℕ}
    (hp : prec.lookup (pairOf cq.1) = some p) (hq : 0 < truncate cq.2 p) :
    sellIntentOf cq r prec =
      some (Intent.mk (pairOf cq.1) Side.SELL (truncate cq.2 p) r) := by
  unfold sellIntentOf
  rw [hp]
  simp [hq]

/-- Unfolding of the exponential weight list: length `n + 1` prepends
`2 ^ n` to the list of length `n`. -/
theorem exponential_weights_succ (n : ℕ) :
    exponential_weights (n + 1) = (2 : ℚ) ^ n :: exponential_weights n := by
  unfold exponential_weights
  rw [List.range_succ_eq_map, List.map_cons, List.map_map]
  congr 1
  apply List.map_congr_left
  intro i _
  simp only [Function.comp_apply]
  congr 1
  omega

/-- The exponential weight list of length `n` sums to `2 ^ n - 1`. -/
theorem exponential_weights_sum (n : ℕ) :
    (exponential_weights n).sum = 2 ^ n - 1 := by
  induction n with
  | zero => simp [exponential_weights]
  | succ n ih =>
    rw [exponential_weights_succ, List.sum_cons, ih]
    ring

/-- The total exponential weight is nonzero for at least one candidate. -/
theorem exponential_weights_sum_ne_zero (n : ℕ) (hn : 1 ≤ n) :
    (exponential_weights n).sum ≠ 0 := by
  rw [exponential_weights_sum]
  have h1 : (1 : ℚ) < 2 ^ n := one_lt_pow₀ (by norm_num) (by omega)
  exact sub_ne_zero.mpr (ne_of_gt h1)

/-- The allocations over all `n` candidates sum exactly to the invested
cash. -/
theorem allocation_sum (cash : ℚ) (n : ℕ) (hn : 1 ≤ n) :
    ((List.range n).map (allocation cash n)).sum = cash := by
  have hT0 : (exponential_weights n).sum ≠ 0 := exponential_weights_sum_ne_zero n hn
  have hfun : allocation cash n =
      fun i => (2 : ℚ) ^ (n - i - 1) * (cash / (exponential_weights n).sum) := by
    funext i
    rw [allocation, div_mul_eq_mul_div, mul_div_assoc]
  rw [hfun, List.sum_map_mul_right,
    show ((List.range n).map fun i => (2 : ℚ) ^ (n - i - 1)) =
      exponential_weights n from rfl,
    mul_comm, div_mul_cancel₀ _ hT0]

/-- Evaluation rule for `truncate` at concrete inputs. -/
theorem truncate_eval {q : ℚ} {p : ℕ} {z : ℤ} (h1 : (z : ℚ) ≤ q * 10 ^ p)
    (h2 : q * 10 ^ p < z + 1) : truncate q p = (z : ℚ) / 10 ^ p := by
  rw [truncate, Int.floor_eq_iff.mpr ⟨h1, h2⟩]

/-- A position of the balance snapshot classified STOP_LOSS is selected by
the full-cycle TP/SL scan with reason SL and its full snapshot quantity. -/
theorem mem_get_holdings_sl {wallet : Wallet} {technicals : List (String × Tech)}
    {ledger : Ledger} {coin : String} {q : ℚ}
    (hpos : (coin, q) ∈ get_current_positions wallet)
    (hsl : classify_tp_sl_full ledger technicals coin = TPSLStatus.stop_loss) :
    (pairOf coin, q, Reason.SL) ∈
      get_holdings_to_sell_for_tp_sl wallet technicals ledger := by
  unfold get_holdings_to_sell_for_tp_sl
  rw [List.mem_filterMap]
  exact ⟨(coin, q), hpos, by dsimp only; rw [hsl]⟩

/-- A position of the balance snapshot classified TAKE_PROFIT is selected by
the full-cycle TP/SL scan with reason TP and its full snapshot quantity. -/
theorem mem_get_holdings_tp {wallet : Wallet} {technicals : List (String × Tech)}
    {ledger : Ledger} {coin : String} {q : ℚ}
    (hpos : (coin, q) ∈ get_current_positions wallet)
    (htp : classify_tp_sl_full ledger technicals coin = TPSLStatus.take_profit) :
    (pairOf coin, q, Reason.TP) ∈
      get_holdings_to_sell_for_tp_sl wallet technicals ledger := by
  unfold get_holdings_to_sell_for_tp_sl
  rw [List.mem_filterMap]
  exact ⟨(coin, q), hpos, by dsimp only; rw [htp]⟩

/-- A selected holding with a known precision rule and positive truncated
quantity is submitted by the TP/SL sell executor. -/
theorem mem_execute_tp_sl_sells {to_sell : List (String × ℚ × Reason)}
    {prec : PrecisionMap} {pr : String} {q : ℚ} {r : Reason} {p : ℕ}
    (hmem : (pr, q, r) ∈ to_sell) (hp : prec.lookup pr = some p)
    (hq : 0 < truncate q p) :
    Intent.mk pr Side.SELL (truncate q p) r ∈ execute_tp_sl_sells to_sell prec := by
  unfold execute_tp_sl_sells
  rw [List.mem_filterMap]
  refine ⟨(pr, q, r), hmem, ?_⟩
  dsimp only
  rw [hp]
  dsimp only
  rw [if_pos hq]

/-- A snapshot position with a strong SELL signal, a known precision rule
and positive truncated quantity is submitted by the strong-sell phase. -/
theorem mem_execute_sells {positions : List (String × ℚ)}
    {technicals : List (String × Tech)} {prec : PrecisionMap}
    {coin : String} {q : ℚ} {t : Tech} {p : ℕ}
    (hpos : (coin, q) ∈ positions) (ht : technicals.lookup (pairOf coin) = some t)
    (hsig : t.signal = Signal.SELL) (hv : STRONG_SELL_THRESHOLD ≤ t.sell)
    (hp : prec.lookup (pairOf coin) = some p) (hq : 0 < truncate q p) :
    Intent.mk (pairOf coin) Side.SELL (truncate q p) Reason.STRONG_SELL ∈
      execute_sells positions technicals prec := by
  unfold execute_sells
  rw [List.mem_filterMap]
  refine ⟨(coin, q), hpos, ?_⟩
  dsimp only
  rw [ht]
  dsimp only
  rw [if_pos ⟨hsig, hv⟩]
  exact sellIntentOf_mk hp hq

/-- A snapshot position with a weak sell-vote count, a known precision rule
and positive truncated quantity is submitted by the weak-sell rebalancing
phase. -/
theorem mem_execute_weak {positions : List (String × ℚ)}
    {technicals : List (String × Tech)} {prec : PrecisionMap}
    {coin : String} {q : ℚ} {t : Tech} {p : ℕ}
    (hpos : (coin, q) ∈ positions) (ht : technicals.lookup (pairOf coin) = some t)
    (hv : WEAK_SELL_THRESHOLD ≤ t.sell)
    (hp : prec.lookup (pairOf coin) = some p) (hq : 0 < truncate q p) :
    Intent.mk (pairOf coin) Side.SELL (truncate q p) Reason.WEAK_SELL_REBALANCE ∈
      execute_weak_sell_rebalancing positions technicals prec := by
  unfold execute_weak_sell_rebalancing
  rw [List.mem_filterMap]
  refine ⟨(coin, q), hpos, ?_⟩
  dsimp only
  rw [ht]
  dsimp only
  rw [if_pos hv]
  exact sellIntentOf_mk hp hq

/-- Every order of the full-cycle TP/SL scan carries reason TP or SL. -/
theorem reason_of_mem_get_holdings {wallet : Wallet}
    {technicals : List (String × Tech)} {ledger : Ledger}
    {y : String × ℚ × Reason}
    (hy : y ∈ get_holdings_to_sell_for_tp_sl wallet technicals ledger) :
    y.2.2 = Reason.TP ∨ y.2.2 = Reason.SL := by
  unfold get_holdings_to_sell_for_tp_sl at hy
  rw [List.mem_filterMap] at hy
  obtain ⟨cq, _, hf⟩ := hy
  revert hf
  cases classify_tp_sl_full ledger technicals cq.1 <;> intro hf <;>
    first
      | (injection hf with hf2; subst hf2; simp)
      | exact absurd hf (by simp)

/-- Every order of the TP/SL sell executor is a SELL carrying the reason of
its selected holding. -/
theorem reason_of_mem_execute_tp_sl_sells {to_sell : List (String × ℚ × Reason)}
    {prec : PrecisionMap} {x : Intent} (hx : x ∈ execute_tp_sl_sells to_sell prec) :
    ∃ y ∈ to_sell, x.side = Side.SELL ∧ x.reason = y.2.2 := by
  unfold execute_tp_sl_sells at hx
  rw [List.mem_filterMap] at hx
  obtain ⟨y, hy, hf⟩ := hx
  refine ⟨y, hy, ?_⟩
  revert hf
  dsimp only
  cases prec.lookup y.1 with
  | none => intro hf; exact absurd hf (by simp)
  | some p =>
    dsimp only
    by_cases hq : 0 < truncate y.2.1 p
    · rw [if_pos hq]
      intro hf
      injection hf with hf2
      subst hf2
      exact ⟨rfl, rfl⟩
    · rw [if_neg hq]
      intro hf
      exact absurd hf (by simp)

/-- Every order of the strong-sell phase is a SELL with reason STRONG_SELL. -/
theorem reason_of_mem_execute_sells {positions : List (String × ℚ)}
    {technicals : List (String × Tech)} {prec : PrecisionMap} {x : Intent}
    (hx : x ∈ execute_sells positions technicals prec) :
    x.side = Side.SELL ∧ x.reason = Reason.STRONG_SELL := by
  unfold execute_sells at hx
  rw [List.mem_filterMap] at hx
  obtain ⟨cq, _, hf⟩ := hx
  revert hf
  cases technicals.lookup (pairOf cq.1) with
  | none => intro hf; exact absurd hf (by simp)
  | some t =>
    dsimp only
    by_cases hc : t.signal = Signal.SELL ∧ STRONG_SELL_THRESHOLD ≤ t.sell
    · rw [if_pos hc]
      intro hf
      obtain ⟨_, h2, h3, _⟩ := sellIntentOf_eq_some hf
      exact ⟨h2, h3⟩
    · rw [if_neg hc]
      intro hf
      exact absurd hf (by simp)

/-- Every order of the weak-sell rebalancing phase is a SELL with reason
WEAK_SELL_REBALANCE. -/
theorem reason_of_mem_execute_weak {positions : List (String × ℚ)}
    {technicals : List (String × Tech)} {prec : PrecisionMap} {x : Intent}
    (hx : x ∈ execute_weak_sell_rebalancing positions technicals prec) :
    x.side = Side.SELL ∧ x.reason = Reason.WEAK_SELL_REBALANCE := by
  unfold execute_weak_sell_rebalancing at hx
  rw [List.mem_filterMap] at hx
  obtain ⟨cq, _, hf⟩ := hx
  revert hf
  cases technicals.lookup (pairOf cq.1) with
  | none => intro hf; exact absurd hf (by simp)
  | some t =>
    dsimp only
    by_cases hc : WEAK_SELL_THRESHOLD ≤ t.sell
    · rw [if_pos hc]
      intro hf
      obtain ⟨_, h2, h3, _⟩ := sellIntentOf_eq_some hf
      exact ⟨h2, h3⟩
    · rw [if_neg hc]
      intro hf
      exact absurd hf (by simp)

/-- Every order of the buy loop is a BUY with reason STRONG_BUY. -/
theorem reason_of_mem_buy_intents {cash : ℚ} {signals : List (String × Tech)}
    {prec : PrecisionMap} {x : Intent} (hx : x ∈ buy_intents cash signals prec) :
    x.side = Side.BUY ∧ x.reason = Reason.STRONG_BUY := by
  unfold buy_intents at hx
  rw [List.mem_filterMap] at hx
  obtain ⟨ix, _, hf⟩ := hx
  revert hf
  dsimp only
  by_cases h10 : allocation cash signals.length ix.1 < 10
  · rw [if_pos h10]
    intro hf
    exact absurd hf (by simp)
  · rw [if_neg h10]
    by_cases hp0 : ix.2.2.price ≤ (0 : ℚ)
    · rw [if_pos hp0]
      intro hf
      exact absurd hf (by simp)
    · rw [if_neg hp0]
      cases prec.lookup ix.2.1 with
      | none => intro hf; exact absurd hf (by simp)
      | some p =>
        dsimp only
        by_cases hq : 0 < truncate (allocation cash signals.length ix.1 / ix.2.2.price) p
        · rw [if_pos hq]
          intro hf
          injection hf with hf2
          subst hf2
          exact ⟨rfl, rfl⟩
        · rw [if_neg hq]
          intro hf
          exact absurd hf (by simp)

/-- With no strong-buy candidate, `execute_buys` submits no order at all. -/
theorem execute_buys_of_no_signals {cash : ℚ} {ranked : List (String × Tech)}
    {positions : List (String × ℚ)} {technicals : List (String × Tech)}
    {prec : PrecisionMap} {fill : Intent → ℚ} (h : buy_signals ranked = []) :
    execute_buys cash ranked positions technicals prec fill = [] := by
  unfold execute_buys
  rw [h]
  rfl

/-- With at least one strong-buy candidate, every weak-sell rebalancing
order is submitted by `execute_buys` (before any cash check stops the buy
loop). -/
theorem weak_mem_execute_buys {cash : ℚ} {ranked : List (String × Tech)}
    {positions : List (String × ℚ)} {technicals : List (String × Tech)}
    {prec : PrecisionMap} {fill : Intent → ℚ} {x : Intent}
    (hs : buy_signals ranked ≠ [])
    (hx : x ∈ execute_weak_sell_rebalancing positions technicals prec) :
    x ∈ execute_buys cash ranked positions technicals prec fill := by
  unfold execute_buys
  dsimp only
  rw [if_neg (by simpa [List.isEmpty_iff] using hs)]
  split
  · exact hx
  · exact List.mem_append_left _ hx

/-- With non-empty technical data, one full trading cycle submits exactly
the TP/SL sells, then the strong sells, then the buy-phase orders, all
computed from the one balance snapshot taken at cycle start. -/
theorem cycle_intents_eq (wallet : Wallet) (technicals : List (String × Tech))
    (ledger : Ledger) (prec : PrecisionMap) (fill : Intent → ℚ)
    (h : technicals ≠ []) :
    cycle_intents wallet technicals ledger prec fill =
      execute_tp_sl_sells (get_holdings_to_sell_for_tp_sl wallet technicals ledger)
          prec ++
        execute_sells (get_current_positions wallet) technicals prec ++
        execute_buys
          (get_total_cash_balance wallet +
            ((execute_tp_sl_sells
              (get_holdings_to_sell_for_tp_sl wallet technicals ledger) prec).map
                fill).sum +
            ((execute_sells (get_current_positions wallet) technicals prec).map
              fill).sum)
          (rank_pairs_by_technicals technicals) (get_current_positions wallet)
          technicals prec fill := by
  unfold cycle_intents
  rw [if_neg (by simpa [List.isEmpty_iff] using h)]

/-! ## Claim theorems -/

/-- C1: for every held position with positive cost basis and positive
current price, both the full-cycle TP/SL check and the quick TP/SL check
compute the ratio price / average_cost and classify TAKE_PROFIT iff the
ratio is at least `TP_THRESHOLD` (1.06, boundary inclusive), STOP_LOSS iff
it is at most `SL_THRESHOLD` (0.97, boundary inclusive), and SAFE iff it
lies strictly between the thresholds. -/
theorem C1_tp_sl_classification (ledger : Ledger)
    (technicals : List (String × Tech)) (ticker : List (String × ℚ))
    (coin : String) (e : Entry) (t : Tech) (price : ℚ)
    (hl : ledger.lookup coin = some e) (hc : 0 < e.buy_price)
    (ht : technicals.lookup (pairOf coin) = some t) (htp : 0 < t.price)
    (hk : ticker.lookup (pairOf coin) = some price) (hkp : 0 < price) :
    (classify_tp_sl_full ledger technicals coin = TPSLStatus.take_profit ↔
        TP_THRESHOLD ≤ t.price / e.buy_price) ∧
    (classify_tp_sl_full ledger technicals coin = TPSLStatus.stop_loss ↔
        t.price / e.buy_price ≤ SL_THRESHOLD) ∧
    (classify_tp_sl_full ledger technicals coin = TPSLStatus.safe ↔
        SL_THRESHOLD < t.price / e.buy_price ∧ t.price / e.buy_price < TP_THRESHOLD) ∧
    (classify_tp_sl_quick ledger ticker coin = TPSLStatus.take_profit ↔
        TP_THRESHOLD ≤ price / e.buy_price) ∧
    (classify_tp_sl_quick ledger ticker coin = TPSLStatus.stop_loss ↔
        price / e.buy_price ≤ SL_THRESHOLD) ∧
    (classify_tp_sl_quick ledger ticker coin = TPSLStatus.safe ↔
        SL_THRESHOLD < price / e.buy_price ∧ price / e.buy_price < TP_THRESHOLD) := by
  have hfull : classify_tp_sl_full ledger technicals coin =
      (if TP_THRESHOLD ≤ t.price / e.buy_price then TPSLStatus.take_profit
       else if t.price / e.buy_price ≤ SL_THRESHOLD then TPSLStatus.stop_loss
       else TPSLStatus.safe) := by
    unfold classify_tp_sl_full
    rw [hl, ht]
    dsimp only
    rw [if_pos hc]
  have hquick : classify_tp_sl_quick ledger ticker coin =
      (if TP_THRESHOLD ≤ price / e.buy_price then TPSLStatus.take_profit
       else if price / e.buy_price ≤ SL_THRESHOLD then TPSLStatus.stop_loss
       else TPSLStatus.safe) := by
    unfold classify_tp_sl_quick
    rw [hl]
    dsimp only
    rw [if_neg (not_le.mpr hc), hk]
    dsimp only
    rw [if_neg (not_le.mpr hkp)]
  obtain ⟨f1, f2, f3⟩ := threshold_cases (t.price / e.buy_price)
  obtain ⟨q1, q2, q3⟩ := threshold_cases (price / e.buy_price)
  rw [hfull, hquick]
  exact ⟨f1, f2, f3, q1, q2, q3⟩

/-- C1 witness: buy price 100, current price 106, ratio exactly 1.06: both
checks classify TAKE_PROFIT (boundary inclusive). -/
theorem C1_tp_sl_classification_witness :
    classify_tp_sl_full [("BTC", Entry.mk 100 10)]
        [("BTC/USD", Tech.mk 106 0 0 0 Signal.NEUTRAL 0)] "BTC" =
      TPSLStatus.take_profit ∧
    classify_tp_sl_quick [("BTC", Entry.mk 100 10)] [("BTC/USD", (106 : ℚ))] "BTC" =
      TPSLStatus.take_profit := by
  have h := C1_tp_sl_classification [("BTC", Entry.mk 100 10)]
    [("BTC/USD", Tech.mk 106 0 0 0 Signal.NEUTRAL 0)] [("BTC/USD", (106 : ℚ))]
    "BTC" (Entry.mk 100 10) (Tech.mk 106 0 0 0 Signal.NEUTRAL 0) 106
    rfl (by norm_num) rfl (by norm_num) rfl (by norm_num)
  exact ⟨h.1.mpr (by norm_num [TP_THRESHOLD]),
    h.2.2.2.1.mpr (by norm_num [TP_THRESHOLD])⟩

/-- C2: merging a recorded ledger entry with a buy fill of positive total
quantity sets the cost basis to the volume-weighted average and the
quantity to the sum. -/
theorem C2_weighted_average_merge (ledger : Ledger) (coin : String) (e : Entry)
    (fill_price fill_qty : ℚ) (h : ledger.lookup coin = some e)
    (hq : 0 < e.quantity + fill_qty) :
    (update_portfolio_on_buy coin fill_qty fill_price ledger).lookup coin =
      some (Entry.mk
        ((e.buy_price * e.quantity + fill_price * fill_qty) / (e.quantity + fill_qty))
        (e.quantity + fill_qty)) := by
  unfold update_portfolio_on_buy
  rw [h]
  simp only [Option.getD_some]
  rw [if_pos hq]
  exact lookup_setEntry _ _ _

/-- C2 witness: merging the entry (cost 100, qty 0) with the fill
(price 50, qty 2) yields (cost 50, qty 2): the stale cost basis of a zeroed
position is not inherited. -/
theorem C2_weighted_average_merge_witness :
    (update_portfolio_on_buy "AAA" 2 50 [("AAA", Entry.mk 100 0)]).lookup "AAA" =
      some (Entry.mk 50 2) := by
  have h := C2_weighted_average_merge [("AAA", Entry.mk 100 0)] "AAA"
    (Entry.mk 100 0) 50 2 rfl (by norm_num)
  rw [h]
  simp only [Option.some.injEq, Entry.mk.injEq]
  norm_num

/-- C3 counterexample: in the full-cycle TP/SL check a recorded position
with cost basis 0 (hence lacking a positive cost basis) and available
technical data is classified SAFE, not reported as no-data: the ratio
defaults to 1.0 (src/main.py line 121) and falls in the SAFE band. -/
theorem C3_counterexample_full_cycle_safe :
    classify_tp_sl_full [("AAA", Entry.mk 0 5)]
      [("AAA/USD", Tech.mk 5 0 0 0 Signal.NEUTRAL 0)] "AAA" = TPSLStatus.safe := by
  unfold classify_tp_sl_full
  rw [show List.lookup "AAA" [("AAA", Entry.mk 0 5)] = some (Entry.mk 0 5) from rfl]
  rw [show List.lookup (pairOf "AAA")
      [("AAA/USD", Tech.mk 5 0 0 0 Signal.NEUTRAL 0)] =
      some (Tech.mk 5 0 0 0 Signal.NEUTRAL 0) from rfl]
  norm_num [TP_THRESHOLD, SL_THRESHOLD]

/-- C3 amended: the no-data exclusion holds in the quick TP/SL check (a
position with non-positive cost basis, a missing ticker entry or a
non-positive price is skipped); the full-cycle check skips only positions
with no portfolio record or no technical data, while a recorded position
with technical data and non-positive cost basis is classified SAFE (ratio
defaults to 1.0) and one with positive cost basis and non-positive price is
classified STOP_LOSS. -/
theorem C3_amended_no_data_handling (ledger : Ledger)
    (ticker : List (String × ℚ)) (technicals : List (String × Tech))
    (coin : String) :
    (∀ e, ledger.lookup coin = some e → e.buy_price ≤ 0 →
        classify_tp_sl_quick ledger ticker coin = TPSLStatus.skipped) ∧
    (∀ e, ledger.lookup coin = some e → 0 < e.buy_price →
        ticker.lookup (pairOf coin) = none →
        classify_tp_sl_quick ledger ticker coin = TPSLStatus.skipped) ∧
    (∀ e price, ledger.lookup coin = some e → 0 < e.buy_price →
        ticker.lookup (pairOf coin) = some price → price ≤ 0 →
        classify_tp_sl_quick ledger ticker coin = TPSLStatus.skipped) ∧
    (ledger.lookup coin = none →
        classify_tp_sl_quick ledger ticker coin = TPSLStatus.skipped ∧
        classify_tp_sl_full ledger technicals coin = TPSLStatus.skipped) ∧
    (∀ e t, ledger.lookup coin = some e → technicals.lookup (pairOf coin) = some t →
        e.buy_price ≤ 0 →
        classify_tp_sl_full ledger technicals coin = TPSLStatus.safe) ∧
    (∀ e t, ledger.lookup coin = some e → technicals.lookup (pairOf coin) = some t →
        0 < e.buy_price → t.price ≤ 0 →
        classify_tp_sl_full ledger technicals coin = TPSLStatus.stop_loss) := by
  refine ⟨?_, ?_, ?_, ?_, ?_, ?_⟩
  · intro e h1 h2
    unfold classify_tp_sl_quick
    rw [h1]
    dsimp only
    rw [if_pos h2]
  · intro e h1 h2 h3
    unfold classify_tp_sl_quick
    rw [h1]
    dsimp only
    rw [if_neg (not_le.mpr h2), h3]
  · intro e price h1 h2 h3 h4
    unfold classify_tp_sl_quick
    rw [h1]
    dsimp only
    rw [if_neg (not_le.mpr h2), h3]
    dsimp only
    rw [if_pos h4]
  · intro h1
    constructor
    · unfold classify_tp_sl_quick
      rw [h1]
    · unfold classify_tp_sl_full
      rw [h1]
  · intro e t h1 h2 h3
    unfold classify_tp_sl_full
    rw [h1, h2]
    dsimp only
    rw [if_neg (not_lt.mpr h3)]
    norm_num [TP_THRESHOLD, SL_THRESHOLD]
  · intro e t h1 h2 h3 h4
    unfold classify_tp_sl_full
    rw [h1, h2]
    dsimp only
    rw [if_pos h3]
    have hpr : t.price / e.buy_price ≤ 0 :=
      div_nonpos_iff.mpr (Or.inr ⟨h4, h3.le⟩)
    rw [if_neg (by rw [TP_THRESHOLD]; intro hcon; norm_num at hcon; linarith)]
    rw [if_pos (by rw [SL_THRESHOLD]; norm_num; linarith)]

/-- C3 amended witness: a zero cost basis is skipped by the quick check but
classified SAFE by the full-cycle check at the same inputs. -/
theorem C3_amended_no_data_handling_witness :
    classify_tp_sl_quick [("AAA", Entry.mk 0 5)] [("AAA/USD", (5 : ℚ))] "AAA" =
      TPSLStatus.skipped ∧
    classify_tp_sl_full [("AAA", Entry.mk 0 5)]
      [("AAA/USD", Tech.mk 5 0 0 0 Signal.NEUTRAL 0)] "AAA" = TPSLStatus.safe := by
  have h := C3_amended_no_data_handling [("AAA", Entry.mk 0 5)]
    [("AAA/USD", (5 : ℚ))] [("AAA/USD", Tech.mk 5 0 0 0 Signal.NEUTRAL 0)] "AAA"
  exact ⟨h.1 (Entry.mk 0 5) rfl (by norm_num),
    h.2.2.2.2.1 (Entry.mk 0 5) (Tech.mk 5 0 0 0 Signal.NEUTRAL 0) rfl rfl
      (by norm_num)⟩

/-- C7: after the ledger update of a full liquidating sell, the entry is
retained with quantity 0 and its cost basis intact; no key is added or
removed; and an asset whose wallet balance is at or below the dust floor is
excluded from the positions-with-holdings enumeration. -/
theorem C7_zero_and_retain (ledger : Ledger) (coin : String) (e : Entry)
    (h : ledger.lookup coin = some e) :
    (zero_position ledger coin).lookup coin = some (Entry.mk e.buy_price 0) ∧
    (∀ c, ((zero_position ledger coin).lookup c).isSome = (ledger.lookup c).isSome) ∧
    (∀ wallet : Wallet,
        (∀ a : Amounts, (coin, a) ∈ wallet → a.free + a.lock ≤ DUST_FLOOR) →
        ∀ q, (coin, q) ∉ get_current_positions wallet) := by
  refine ⟨?_, ?_, ?_⟩
  · unfold zero_position
    rw [h]
    exact lookup_setEntry _ _ _
  · intro c
    unfold zero_position
    rw [h, lookup_setEntry_of_lookup ledger coin c _ e h]
    by_cases hc : c = coin
    · subst hc
      simp [h]
    · simp [hc]
  · intro wallet hw q hq
    obtain ⟨a, hmem, _, hlt, _⟩ := (mem_get_current_positions wallet coin q).mp hq
    exact absurd (hw a hmem) (not_le.mpr hlt)

/-- C7 witness: zeroing the position of AAA keeps its entry with quantity 0,
and a drained wallet balance of AAA is no longer enumerated. -/
theorem C7_zero_and_retain_witness :
    (zero_position [("AAA", Entry.mk 100 10)] "AAA").lookup "AAA" =
      some (Entry.mk 100 0) ∧
    ("AAA", (0 : ℚ)) ∉ get_current_positions [("AAA", Amounts.mk 0 0)] := by
  have h := C7_zero_and_retain [("AAA", Entry.mk 100 10)] "AAA" (Entry.mk 100 10) rfl
  refine ⟨h.1, h.2.2 [("AAA", Amounts.mk 0 0)] ?_ 0⟩
  intro a ha
  rw [List.mem_singleton] at ha
  obtain ⟨_, rfl⟩ := Prod.mk.injEq .. ▸ ha
  norm_num [DUST_FLOOR]

/-- C8: an instrument is a strong-buy candidate of the buy phase iff it is
among the ranked signals with aggregate direction BUY and at least
`STRONG_SELL_THRESHOLD` buy votes, and that shared threshold constant
equals 13. -/
theorem C8_strong_buy_uses_strong_sell_threshold :
    (∀ (ranked : List (String × Tech)) (pd : String × Tech),
        pd ∈ buy_signals ranked ↔
          pd ∈ ranked ∧ pd.2.signal = Signal.BUY ∧
            STRONG_SELL_THRESHOLD ≤ pd.2.buy) ∧
    STRONG_SELL_THRESHOLD = 13 := by
  refine ⟨?_, rfl⟩
  intro ranked pd
  simp [buy_signals, List.mem_filter, and_assoc]

/-- C8 witness: a BUY signal with exactly 13 buy votes is selected. -/
theorem C8_strong_buy_uses_strong_sell_threshold_witness :
    ("X/USD", Tech.mk 1 0 0 13 Signal.BUY 13) ∈
      buy_signals [("X/USD", Tech.mk 1 0 0 13 Signal.BUY 13)] :=
  (C8_strong_buy_uses_strong_sell_threshold.1 _ _).mpr
    ⟨List.mem_singleton_self _, rfl, by norm_num [STRONG_SELL_THRESHOLD]⟩

/-- C10: the positions-with-holdings enumeration contains exactly the
non-USD wallet assets whose Free+Lock total exceeds the 1e-8 dust floor;
USD never appears; every enumerated quantity exceeds the floor; and a dust
asset is invisible: dropping it changes neither the enumeration nor the
portfolio valuation that every phase consumes. -/
theorem C10_dust_and_usd_filter :
    (∀ (wallet : Wallet) (c : String) (q : ℚ),
        (c, q) ∈ get_current_positions wallet ↔
          ∃ a : Amounts, (c, a) ∈ wallet ∧ c ≠ "USD" ∧
            DUST_FLOOR < a.free + a.lock ∧ q = a.free + a.lock) ∧
    (∀ (wallet : Wallet) (q : ℚ), ("USD", q) ∉ get_current_positions wallet) ∧
    (∀ (wallet : Wallet) (c : String) (q : ℚ),
        (c, q) ∈ get_current_positions wallet → DUST_FLOOR < q) ∧
    (∀ (wallet : Wallet) (c : String) (a : Amounts),
        a.free + a.lock ≤ DUST_FLOOR →
        get_current_positions ((c, a) :: wallet) = get_current_positions wallet ∧
        ∀ ticker, get_total_portfolio_value ((c, a) :: wallet) ticker =
          get_total_portfolio_value wallet ticker) := by
  refine ⟨mem_get_current_positions, ?_, ?_, ?_⟩
  · intro wallet q hq
    obtain ⟨a, _, hne, _, _⟩ := (mem_get_current_positions wallet "USD" q).mp hq
    exact hne rfl
  · intro wallet c q hq
    obtain ⟨a, _, _, hlt, rfl⟩ := (mem_get_current_positions wallet c q).mp hq
    exact hlt
  · intro wallet c a ha
    have hpos : get_current_positions ((c, a) :: wallet) =
        get_current_positions wallet := by
      unfold get_current_positions
      rw [List.filterMap_cons]
      rw [if_neg (by rintro ⟨_, hlt⟩; exact absurd ha (not_le.mpr hlt))]
    refine ⟨hpos, ?_⟩
    intro ticker
    unfold get_total_portfolio_value
    rw [hpos]

/-- C10 witness: a dust balance of 1e-9 is dropped from the enumeration. -/
theorem C10_dust_and_usd_filter_witness :
    get_current_positions
        (("DOGE", Amounts.mk (1 / 1000000000) 0) :: [("BTC", Amounts.mk 1 0)]) =
      get_current_positions [("BTC", Amounts.mk 1 0)] :=
  (C10_dust_and_usd_filter.2.2.2 [("BTC", Amounts.mk 1 0)] "DOGE"
    (Amounts.mk (1 / 1000000000) 0) (by norm_num [DUST_FLOOR])).1

/-- C4: with N ≥ 1 ranked strong-buy candidates, the candidate at 0-based
rank i is assigned allocation cash * 2^(N-i-1) / (Σ over all j in [0,N) of
2^(N-j-1)); the denominator ranges over all N candidates independent of any
later per-candidate rejection; the allocations over all N candidates sum
exactly to the invested cash; and every submitted buy order for a
non-rejected candidate uses exactly this fixed-denominator allocation, so a
skipped candidate's share is not redistributed. -/
theorem C4_exponential_allocation (cash : ℚ) (signals : List (String × Tech))
    (prec : PrecisionMap) (hn : 1 ≤ signals.length) :
    (∀ i : ℕ, allocation cash signals.length i =
        cash * 2 ^ (signals.length - i - 1) /
          ((List.range signals.length).map
            fun j => (2 : ℚ) ^ (signals.length - j - 1)).sum) ∧
    ((List.range signals.length).map (allocation cash signals.length)).sum = cash ∧
    (∀ (i : ℕ) (pair : String) (data : Tech) (p : ℕ),
        signals[i]? = some (pair, data) →
        ¬ allocation cash signals.length i < 10 →
        0 < data.price →
        prec.lookup pair = some p →
        0 < truncate (allocation cash signals.length i / data.price) p →
        Intent.mk pair Side.BUY
            (truncate (allocation cash signals.length i / data.price) p)
            Reason.STRONG_BUY ∈ buy_intents cash signals prec) := by
  refine ⟨?_, allocation_sum cash signals.length hn, ?_⟩
  · intro i
    rw [show ((List.range signals.length).map
        fun j => (2 : ℚ) ^ (signals.length - j - 1)).sum =
        (exponential_weights signals.length).sum from rfl]
    rw [allocation]
    ring
  · intro i pair data p hi h10 hp hprec htr
    unfold buy_intents
    rw [List.mem_filterMap]
    refine ⟨(i, (pair, data)), List.mk_mem_enum_iff_getElem?.mpr hi, ?_⟩
    dsimp only
    rw [if_neg h10, if_neg (not_le.mpr hp), hprec]
    dsimp only
    rw [if_pos htr]

/-- C4 witness: two candidates and cash 70 give weights [2, 1] of total 3;
the allocations sum to 70 and the top candidate's order is submitted with
its 2/3 share. -/
theorem C4_exponential_allocation_witness :
    ((List.range 2).map (allocation 70 2)).sum = 70 ∧
    Intent.mk "A/USD" Side.BUY (truncate (allocation 70 2 0 / 1) 0)
        Reason.STRONG_BUY ∈
      buy_intents 70
        [("A/USD", Tech.mk 1 0 0 14 Signal.BUY 14),
         ("B/USD", Tech.mk 1 0 0 14 Signal.BUY 14)]
        [("A/USD", 0), ("B/USD", 0)] := by
  have halloc : allocation 70 2 0 = 140 / 3 := by
    norm_num [allocation, exponential_weights, List.range_succ, List.range_zero]
  have h := C4_exponential_allocation 70
    [("A/USD", Tech.mk 1 0 0 14 Signal.BUY 14),
     ("B/USD", Tech.mk 1 0 0 14 Signal.BUY 14)]
    [("A/USD", 0), ("B/USD", 0)] (by norm_num)
  refine ⟨h.2.1, h.2.2 0 "A/USD" (Tech.mk 1 0 0 14 Signal.BUY 14) 0 rfl ?_
    (by norm_num) rfl ?_⟩
  · show ¬ allocation 70 2 0 < 10
    rw [halloc]
    norm_num
  · show 0 < truncate (allocation 70 2 0 / 1) 0
    rw [halloc, truncate_eval (z := 46) (by norm_num) (by norm_num)]
    norm_num

/-- C5 counterexample: the sell phases all iterate the positions snapshot
taken at cycle start.  Holding 10 AAA bought at 100 with current price 90,
13 sell votes and signal SELL, the cycle submits the full 10 AAA for sale
in the TP/SL risk phase (stop loss), again in the strong-sell phase, and —
because BBB is a strong-buy candidate — a third time in the weak-sell
funding phase, refuting the claim that earlier-phase sales are excluded
from later phases. -/
theorem C5_counterexample_double_sell :
    Intent.mk "AAA/USD" Side.SELL 10 Reason.SL ∈
      cycle_intents [("USD", Amounts.mk 100000 0), ("AAA", Amounts.mk 10 0)]
        [("AAA/USD", Tech.mk 90 13 0 0 Signal.SELL (-13)),
         ("BBB/USD", Tech.mk 1 0 0 14 Signal.BUY 14)]
        [("AAA", Entry.mk 100 10)] [("AAA/USD", 2), ("BBB/USD", 0)]
        (fun _ => 0) ∧
    Intent.mk "AAA/USD" Side.SELL 10 Reason.STRONG_SELL ∈
      cycle_intents [("USD", Amounts.mk 100000 0), ("AAA", Amounts.mk 10 0)]
        [("AAA/USD", Tech.mk 90 13 0 0 Signal.SELL (-13)),
         ("BBB/USD", Tech.mk 1 0 0 14 Signal.BUY 14)]
        [("AAA", Entry.mk 100 10)] [("AAA/USD", 2), ("BBB/USD", 0)]
        (fun _ => 0) ∧
    Intent.mk "AAA/USD" Side.SELL 10 Reason.WEAK_SELL_REBALANCE ∈
      cycle_intents [("USD", Amounts.mk 100000 0), ("AAA", Amounts.mk 10 0)]
        [("AAA/USD", Tech.mk 90 13 0 0 Signal.SELL (-13)),
         ("BBB/USD", Tech.mk 1 0 0 14 Signal.BUY 14)]
        [("AAA", Entry.mk 100 10)] [("AAA/USD", 2), ("BBB/USD", 0)]
        (fun _ => 0) := by
  have htr : truncate (10 : ℚ) 2 = 10 := by
    rw [truncate_eval (z := 1000) (by norm_num) (by norm_num)]
    norm_num
  have hq : 0 < truncate (10 : ℚ) 2 := by rw [htr]; norm_num
  have hpos : ("AAA", (10 : ℚ)) ∈ get_current_positions
      [("USD", Amounts.mk 100000 0), ("AAA", Amounts.mk 10 0)] :=
    (mem_get_current_positions _ _ _).mpr
      ⟨Amounts.mk 10 0, List.mem_cons_of_mem _ (List.mem_cons_self _ _),
        by decide, by norm_num [DUST_FLOOR], by norm_num⟩
  have hclass : classify_tp_sl_full [("AAA", Entry.mk 100 10)]
      [("AAA/USD", Tech.mk 90 13 0 0 Signal.SELL (-13)),
       ("BBB/USD", Tech.mk 1 0 0 14 Signal.BUY 14)] "AAA" =
      TPSLStatus.stop_loss := by
    unfold classify_tp_sl_full
    rw [show List.lookup "AAA" [("AAA", Entry.mk 100 10)] =
        some (Entry.mk 100 10) from rfl]
    rw [show List.lookup (pairOf "AAA")
        [("AAA/USD", Tech.mk 90 13 0 0 Signal.SELL (-13)),
         ("BBB/USD", Tech.mk 1 0 0 14 Signal.BUY 14)] =
        some (Tech.mk 90 13 0 0 Signal.SELL (-13)) from rfl]
    dsimp only
    rw [if_pos (show (0 : ℚ) < 100 by norm_num)]
    norm_num [TP_THRESHOLD, SL_THRESHOLD]
  have hp2 : List.lookup (pairOf "AAA") [("AAA/USD", 2), ("BBB/USD", 0)] =
      some (2 : ℕ) := rfl
  have ht2 : List.lookup (pairOf "AAA")
      [("AAA/USD", Tech.mk 90 13 0 0 Signal.SELL (-13)),
       ("BBB/USD", Tech.mk 1 0 0 14 Signal.BUY 14)] =
      some (Tech.mk 90 13 0 0 Signal.SELL (-13)) := rfl
  have hsl := mem_execute_tp_sl_sells (mem_get_holdings_sl hpos hclass) hp2 hq
  have hss := mem_execute_sells hpos ht2 rfl
    (by norm_num [STRONG_SELL_THRESHOLD]) hp2 hq
  have hwk := mem_execute_weak hpos ht2 (by norm_num [WEAK_SELL_THRESHOLD]) hp2 hq
  have hbs : buy_signals (rank_pairs_by_technicals
      [("AAA/USD", Tech.mk 90 13 0 0 Signal.SELL (-13)),
       ("BBB/USD", Tech.mk 1 0 0 14 Signal.BUY 14)]) =
      [("BBB/USD", Tech.mk 1 0 0 14 Signal.BUY 14)] := rfl
  have hcyc := cycle_intents_eq
    [("USD", Amounts.mk 100000 0), ("AAA", Amounts.mk 10 0)]
    [("AAA/USD", Tech.mk 90 13 0 0 Signal.SELL (-13)),
     ("BBB/USD", Tech.mk 1 0 0 14 Signal.BUY 14)]
    [("AAA", Entry.mk 100 10)] [("AAA/USD", 2), ("BBB/USD", 0)]
    (fun _ => 0) (by simp)
  rw [htr] at hsl hss hwk
  refine ⟨?_, ?_, ?_⟩
  · rw [hcyc]
    exact List.mem_append_left _ (List.mem_append_left _ hsl)
  · rw [hcyc]
    exact List.mem_append_left _ (List.mem_append_right _ hss)
  · rw [hcyc]
    refine List.mem_append_right _ (weak_mem_execute_buys ?_ hwk)
    rw [hbs]
    exact List.cons_ne_nil _ _

/-- C5 amended: the strong-sell and weak-sell funding phases iterate the
positions snapshot taken at cycle start, not the positions remaining after
earlier phases: a position fully submitted for sale by the TP/SL risk phase
is submitted again by the strong-sell phase whenever its signal meets the
strong-sell condition, and again by the weak-sell funding phase whenever a
strong-buy candidate exists (a duplicate order can only fail at the venue,
where its failure is logged and ignored). -/
theorem C5_amended_stale_snapshot (wallet : Wallet)
    (technicals : List (String × Tech)) (ledger : Ledger) (prec : PrecisionMap)
    (fill : Intent → ℚ) (coin : String) (q : ℚ) (t : Tech) (p : ℕ)
    (hpos : (coin, q) ∈ get_current_positions wallet)
    (ht : technicals.lookup (pairOf coin) = some t)
    (hsig : t.signal = Signal.SELL) (hv : STRONG_SELL_THRESHOLD ≤ t.sell)
    (hp : prec.lookup (pairOf coin) = some p) (hq : 0 < truncate q p)
    (hclass : classify_tp_sl_full ledger technicals coin = TPSLStatus.stop_loss) :
    Intent.mk (pairOf coin) Side.SELL (truncate q p) Reason.SL ∈
      cycle_intents wallet technicals ledger prec fill ∧
    Intent.mk (pairOf coin) Side.SELL (truncate q p) Reason.STRONG_SELL ∈
      cycle_intents wallet technicals ledger prec fill ∧
    (buy_signals (rank_pairs_by_technicals technicals) ≠ [] →
      Intent.mk (pairOf coin) Side.SELL (truncate q p) Reason.WEAK_SELL_REBALANCE ∈
        cycle_intents wallet technicals ledger prec fill) := by
  have htech : technicals ≠ [] := by
    intro hnil
    rw [hnil] at ht
    simp at ht
  have hcyc := cycle_intents_eq wallet technicals ledger prec fill htech
  have hsl := mem_execute_tp_sl_sells (mem_get_holdings_sl hpos hclass) hp hq
  have hss := mem_execute_sells hpos ht hsig hv hp hq
  refine ⟨?_, ?_, ?_⟩
  · rw [hcyc]
    exact List.mem_append_left _ (List.mem_append_left _ hsl)
  · rw [hcyc]
    exact List.mem_append_left _ (List.mem_append_right _ hss)
  · intro hs
    have hwk := mem_execute_weak hpos ht
      (le_trans (by norm_num [WEAK_SELL_THRESHOLD, STRONG_SELL_THRESHOLD]) hv)
      hp hq
    rw [hcyc]
    exact List.mem_append_right _ (weak_mem_execute_buys hs hwk)

/-- C5 amended witness: in the concrete stop-loss-plus-strong-sell scenario
the strong-sell phase re-submits the position already sold by the risk
phase. -/
theorem C5_amended_stale_snapshot_witness :
    Intent.mk (pairOf "AAA") Side.SELL (truncate 10 2) Reason.STRONG_SELL ∈
      cycle_intents [("USD", Amounts.mk 100000 0), ("AAA", Amounts.mk 10 0)]
        [("AAA/USD", Tech.mk 90 13 0 0 Signal.SELL (-13))]
        [("AAA", Entry.mk 100 10)] [("AAA/USD", 2)] (fun _ => 0) := by
  have hq : 0 < truncate (10 : ℚ) 2 := by
    rw [truncate_eval (z := 1000) (by norm_num) (by norm_num)]
    norm_num
  have hpos : ("AAA", (10 : ℚ)) ∈ get_current_positions
      [("USD", Amounts.mk 100000 0), ("AAA", Amounts.mk 10 0)] :=
    (mem_get_current_positions _ _ _).mpr
      ⟨Amounts.mk 10 0, List.mem_cons_of_mem _ (List.mem_cons_self _ _),
        by decide, by norm_num [DUST_FLOOR], by norm_num⟩
  have hclass : classify_tp_sl_full [("AAA", Entry.mk 100 10)]
      [("AAA/USD", Tech.mk 90 13 0 0 Signal.SELL (-13))] "AAA" =
      TPSLStatus.stop_loss := by
    unfold classify_tp_sl_full
    rw [show List.lookup "AAA" [("AAA", Entry.mk 100 10)] =
        some (Entry.mk 100 10) from rfl]
    rw [show List.lookup (pairOf "AAA")
        [("AAA/USD", Tech.mk 90 13 0 0 Signal.SELL (-13))] =
        some (Tech.mk 90 13 0 0 Signal.SELL (-13)) from rfl]
    dsimp only
    rw [if_pos (show (0 : ℚ) < 100 by norm_num)]
    norm_num [TP_THRESHOLD, SL_THRESHOLD]
  exact (C5_amended_stale_snapshot
    [("USD", Amounts.mk 100000 0), ("AAA", Amounts.mk 10 0)]
    [("AAA/USD", Tech.mk 90 13 0 0 Signal.SELL (-13))]
    [("AAA", Entry.mk 100 10)] [("AAA/USD", 2)] (fun _ => 0)
    "AAA" 10 (Tech.mk 90 13 0 0 Signal.SELL (-13)) 2
    hpos rfl rfl (by norm_num [STRONG_SELL_THRESHOLD]) rfl hq hclass).2.1

/-- C6: the weak-sell funding liquidation of a cycle runs iff at least one
strong-buy candidate exists in that cycle's ranked signals: with no
candidate, no order of the whole cycle carries reason WEAK_SELL_REBALANCE
(weak-sell holdings are untouched); with at least one candidate, every
weak-sell rebalancing order of the snapshot is submitted by the cycle. -/
theorem C6_funding_iff_strong_buy (wallet : Wallet)
    (technicals : List (String × Tech)) (ledger : Ledger) (prec : PrecisionMap)
    (fill : Intent → ℚ) :
    (buy_signals (rank_pairs_by_technicals technicals) = [] →
      ∀ x ∈ cycle_intents wallet technicals ledger prec fill,
        x.reason ≠ Reason.WEAK_SELL_REBALANCE) ∧
    (buy_signals (rank_pairs_by_technicals technicals) ≠ [] →
      ∀ x ∈ execute_weak_sell_rebalancing (get_current_positions wallet)
          technicals prec,
        x ∈ cycle_intents wallet technicals ledger prec fill) := by
  constructor
  · intro hbs x hx
    by_cases htech : technicals = []
    · rw [htech] at hx
      simp [cycle_intents] at hx
    · rw [cycle_intents_eq wallet technicals ledger prec fill htech] at hx
      rcases List.mem_append.mp hx with hx1 | hx3
      · rcases List.mem_append.mp hx1 with hx1 | hx2
        · obtain ⟨y, hy, _, hr⟩ := reason_of_mem_execute_tp_sl_sells hx1
          rcases reason_of_mem_get_holdings hy with h | h <;> rw [hr, h] <;> simp
        · rw [(reason_of_mem_execute_sells hx2).2]
          simp
      · rw [execute_buys_of_no_signals hbs] at hx3
        simp at hx3
  · intro hbs x hx
    have htech : technicals ≠ [] := by
      intro hnil
      apply hbs
      rw [hnil]
      rfl
    rw [cycle_intents_eq wallet technicals ledger prec fill htech]
    exact List.mem_append_right _ (weak_mem_execute_buys hbs hx)

/-- C6 witness: with a lone strong-sell instrument and no strong-buy
candidate, the cycle submits no weak-sell funding order. -/
theorem C6_funding_iff_strong_buy_witness :
    ∀ x ∈ cycle_intents [("AAA", Amounts.mk 10 0)]
        [("AAA/USD", Tech.mk 90 13 0 0 Signal.SELL (-13))]
        [("AAA", Entry.mk 100 10)] [("AAA/USD", 2)] (fun _ => 0),
      x.reason ≠ Reason.WEAK_SELL_REBALANCE :=
  (C6_funding_iff_strong_buy [("AAA", Amounts.mk 10 0)]
    [("AAA/USD", Tech.mk 90 13 0 0 Signal.SELL (-13))]
    [("AAA", Entry.mk 100 10)] [("AAA/USD", 2)] (fun _ => 0)).1 rfl

/-- C9: every order of the quick TP/SL check is a SELL with reason TP or SL
(the fast risk loop executes only the risk phase: never strong-sell,
weak-sell funding or buy orders); on a tick whose accumulated timer reaches
the full-cycle interval, the full cycle's orders come first, the quick
check still runs the same tick, and the timer restarts from one quick
interval; on any other tick only the quick check runs and the timer
advances by one quick interval. -/
theorem C9_fast_loop_risk_only (env : Env) (t : ℕ) :
    (∀ x ∈ quick_intents env.wallet env.ticker env.ledger env.prec,
        x.side = Side.SELL ∧ (x.reason = Reason.TP ∨ x.reason = Reason.SL)) ∧
    (FULL_TRADING_CYCLE_INTERVAL ≤ t →
        (tick env t).1 =
          cycle_intents env.wallet env.technicals env.ledger env.prec env.fill ++
            quick_intents env.wallet env.ticker env.ledger env.prec ∧
        (tick env t).2 = QUICK_TP_SL_CHECK_INTERVAL) ∧
    (t < FULL_TRADING_CYCLE_INTERVAL →
        (tick env t).1 = quick_intents env.wallet env.ticker env.ledger env.prec ∧
        (tick env t).2 = t + QUICK_TP_SL_CHECK_INTERVAL) := by
  refine ⟨?_, ?_, ?_⟩
  · intro x hx
    unfold quick_intents at hx
    by_cases hemp : (env.ticker).isEmpty
    · rw [if_pos hemp] at hx
      simp at hx
    · rw [if_neg hemp] at hx
      rw [List.mem_filterMap] at hx
      obtain ⟨cq, _, hf⟩ := hx
      revert hf
      cases classify_tp_sl_quick env.ledger env.ticker cq.1 <;> intro hf
      · obtain ⟨_, h2, h3, _⟩ := sellIntentOf_eq_some hf
        exact ⟨h2, Or.inl h3⟩
      · obtain ⟨_, h2, h3, _⟩ := sellIntentOf_eq_some hf
        exact ⟨h2, Or.inr h3⟩
      · exact absurd hf (by simp)
      · exact absurd hf (by simp)
  · intro ht
    unfold tick
    dsimp only
    rw [if_pos ht]
    exact ⟨rfl, rfl⟩
  · intro ht
    unfold tick
    dsimp only
    rw [if_neg (not_le.mpr ht)]
    exact ⟨rfl, rfl⟩

/-- C9 witness: at timer 600 the tick runs the full cycle first, the quick
check after, and resets the timer; at timer 0 only the quick check runs. -/
theorem C9_fast_loop_risk_only_witness :
    (tick (Env.mk [] [] [] [] [] (fun _ => 0)) 600).1 =
      cycle_intents [] [] [] [] (fun _ => 0) ++ quick_intents [] [] [] [] ∧
    (tick (Env.mk [] [] [] [] [] (fun _ => 0)) 600).2 =
      QUICK_TP_SL_CHECK_INTERVAL ∧
    (tick (Env.mk [] [] [] [] [] (fun _ => 0)) 0).1 = quick_intents [] [] [] [] := by
  have h600 := (C9_fast_loop_risk_only (Env.mk [] [] [] [] [] (fun _ => 0)) 600).2.1
    (by norm_num [FULL_TRADING_CYCLE_INTERVAL])
  have h0 := (C9_fast_loop_risk_only (Env.mk [] [] [] [] [] (fun _ => 0)) 0).2.2
    (by norm_num [FULL_TRADING_CYCLE_INTERVAL])
  exact ⟨h600.1, h600.2, h0.1⟩

end AlgoBot
